import Mathlib

/-!
Verification of the splunk-hec-go event submission pipeline (hec.go, errors.go).

The pipeline is embedded shallowly:
* an `Event` is represented by the output of the Record Encoder
  (`json.Marshal` plus `event.empty()`, which live outside the provided
  sources and are therefore modelled from the spec contract
  `encode(record) -> (bytes, isEmpty)`);
* bytes are natural numbers, byte buffers are `List Nat`;
* the HTTP layer is an oracle: for `WriteBatch`/`WriteRaw`/`WriteEvent`
  the oracle maps the ordinal of each `hec.write` call to `none`
  (success) or `some e` (the opaque error value that `hec.write`
  returned); for the retrying `write` itself a second oracle maps each
  attempt number to the observed HTTP outcome;
* `bufio.Scanner` with the default `ScanLines` split function is
  embedded as `scanLines` (split at the newline byte 10, strip one
  trailing carriage-return byte 13 from every token, no final empty
  token when the input ends with a newline).
-/

namespace SplunkHec

/-- Modelled from the spec: the Record Encoder contract
`encode(record) -> (bytes, isEmpty)` (§4.1).  The files defining the
`Event` struct, `event.empty()` and its JSON serialization are not part
of the provided sources, so a record is represented directly by the two
outputs of the encoder: the emptiness decision consulted by
`event.empty()` and the byte sequence produced by `json.Marshal`. -/
structure Event where
  empty : Bool
  encoded : List Nat
  deriving DecidableEq, Repr

/-- Outcome of one of the submission calls: `ok` models a `nil` error
return, `tooLong idxs` models returning `&ErrEventTooLong{idxs}`
(with `[]` standing for the Go `nil` index slice of `ErrEventTooLong{}`),
and `fault e` models returning the (opaque) error produced by
`hec.write`. -/
inductive Outcome where
  | ok : Outcome
  | tooLong : List Nat → Outcome
  | fault : Nat → Outcome
  deriving DecidableEq, Repr

/-- Observable behaviour of one submission call: the list of request
bodies handed to `hec.write` in order, and the returned error value. -/
structure Run where
  sent : List (List Nat)
  result : Outcome
  deriving DecidableEq, Repr

/-- Response status codes from errors.go. -/
def StatusSuccess : Int := 0

/-- Status code 1 from errors.go. -/
def StatusTokenDisabled : Int := 1

/-- Status code 2 from errors.go. -/
def StatusTokenRequired : Int := 2

/-- Status code 3 from errors.go. -/
def StatusInvalidAuthorization : Int := 3

/-- Status code 4 from errors.go. -/
def StatusInvalidToken : Int := 4

/-- Status code 5 from errors.go. -/
def StatusNoData : Int := 5

/-- Status code 6 from errors.go. -/
def StatusInvalidDataFormat : Int := 6

/-- Status code 7 from errors.go. -/
def StatusIncorrectIndex : Int := 7

/-- Status code 8 from errors.go. -/
def StatusInternalServerError : Int := 8

/-- Status code 9 from errors.go. -/
def StatusServerBusy : Int := 9

/-- Status code 10 from errors.go. -/
def StatusChannelMissing : Int := 10

/-- Status code 11 from errors.go. -/
def StatusInvalidChannel : Int := 11

/-- Status code 12 from errors.go. -/
def StatusEventFieldRequired : Int := 12

/-- Status code 13 from errors.go. -/
def StatusEventFieldBlank : Int := 13

/-- Status code 14 from errors.go. -/
def StatusAckDisabled : Int := 14

/-- errors.go: `func retriable(code int) bool`. -/
def retriable (code : Int) : Bool :=
  code == StatusServerBusy || code == StatusInternalServerError

/-- Shared tail of `WriteBatch`/`WriteRaw`: after the loop, return
`&ErrEventTooLong{tooLongs}` when any oversize item was recorded and
`nil` otherwise (`sent` is the transcript of transmitted bodies). -/
def endRun (sent : List (List Nat)) (tooLongs : List Nat) : Run :=
  if 0 < tooLongs.length then ⟨sent, Outcome.tooLong tooLongs⟩
  else ⟨sent, Outcome.ok⟩

/-- The body of `Client.WriteBatch` (hec.go lines 299-337): the loop
over `events` carrying the original `index`, the accumulating `buffer`,
the `tooLongs` index list and the transcript `sent` of bodies already
handed to `hec.write`.  The oracle `res` gives the error value returned
by the n-th `hec.write` call (`none` = success). -/
def goBatch (maxLen : Nat) (res : Nat → Option Nat) :
    List Event → Nat → List Nat → List Nat → List (List Nat) → Run
  | [], _, buffer, tooLongs, sent =>
    if 0 < buffer.length then
      match res sent.length with
      | some e => ⟨sent ++ [buffer], Outcome.fault e⟩
      | none => endRun (sent ++ [buffer]) tooLongs
    else endRun sent tooLongs
  | ev :: rest, index, buffer, tooLongs, sent =>
    if ev.empty then
      goBatch maxLen res rest (index + 1) buffer tooLongs sent
    else if maxLen < ev.encoded.length then
      goBatch maxLen res rest (index + 1) buffer (tooLongs ++ [index]) sent
    else if maxLen < buffer.length + ev.encoded.length then
      match res sent.length with
      | some e => ⟨sent ++ [buffer], Outcome.fault e⟩
      | none => goBatch maxLen res rest (index + 1) ev.encoded tooLongs (sent ++ [buffer])
    else
      goBatch maxLen res rest (index + 1) (buffer ++ ev.encoded) tooLongs sent

/-- `Client.WriteBatch` (hec.go lines 299-337), including the initial
`len(events) == 0` early return. -/
def WriteBatch (maxLen : Nat) (res : Nat → Option Nat) (events : List Event) : Run :=
  if events.length = 0 then ⟨[], Outcome.ok⟩
  else goBatch maxLen res events 0 [] [] []

/-- bufio's `dropCR`: drop a single terminal carriage-return byte. -/
def dropCR (l : List Nat) : List Nat :=
  if l.getLast? = some 13 then l.dropLast else l

/-- Worker for `scanLines`: `cur` is the partial token collected since
the last newline byte; at end of input a non-empty leftover is produced
as a final token, an empty leftover is not. -/
def scanGo : List Nat → List Nat → List (List Nat)
  | cur, [] => if cur = [] then [] else [dropCR cur]
  | cur, c :: rest =>
    if c = 10 then dropCR cur :: scanGo [] rest
    else scanGo (cur ++ [c]) rest

/-- The token sequence produced by `bufio.NewScanner` with the default
`ScanLines` split function on the given input bytes. -/
def scanLines (input : List Nat) : List (List Nat) :=
  scanGo [] input

/-- The body of `Client.WriteRaw`'s scanning loop (hec.go lines
347-379): the loop over the scanner's lines carrying the 1-based
`lineNo`, the accumulating `buf`, the `tooLongs` line-number list and
the transcript `sent`. -/
def goRaw (maxLen : Nat) (res : Nat → Option Nat) :
    List (List Nat) → Nat → List Nat → List Nat → List (List Nat) → Run
  | [], _, buf, tooLongs, sent =>
    if 0 < buf.length then
      match res sent.length with
      | some e => ⟨sent ++ [buf], Outcome.fault e⟩
      | none => endRun (sent ++ [buf]) tooLongs
    else endRun sent tooLongs
  | line :: rest, lineNo, buf, tooLongs, sent =>
    if maxLen < line.length then
      goRaw maxLen res rest (lineNo + 1) buf (tooLongs ++ [lineNo]) sent
    else if maxLen < buf.length + line.length + 1 then
      match res sent.length with
      | some e => ⟨sent ++ [buf], Outcome.fault e⟩
      | none => goRaw maxLen res rest (lineNo + 1) (line ++ [10]) tooLongs (sent ++ [buf])
    else
      goRaw maxLen res rest (lineNo + 1) (buf ++ line ++ [10]) tooLongs sent

/-- `Client.WriteRaw` (hec.go lines 347-379) on the raw input bytes of
the seekable stream. -/
def WriteRaw (maxLen : Nat) (res : Nat → Option Nat) (input : List Nat) : Run :=
  goRaw maxLen res (scanLines input) 1 [] [] []

/-- `Client.WriteEvent` (hec.go lines 285-297). -/
def WriteEvent (maxLen : Nat) (res : Nat → Option Nat) (ev : Event) : Run :=
  if ev.empty then ⟨[], Outcome.ok⟩
  else if maxLen < ev.encoded.length then ⟨[], Outcome.tooLong []⟩
  else
    match res 0 with
    | some e => ⟨[ev.encoded], Outcome.fault e⟩
    | none => ⟨[ev.encoded], Outcome.ok⟩

/-- Observable result of one HTTP attempt inside `Client.write`:
`transportErr e` models a connection-level failure from
`http.NewRequest`, `httpClient.Do` or reading the body, `httpOk` a
`StatusOK` exchange, and `response code` a completed non-200 exchange
whose parsed `Response` carries the given code. -/
inductive Attempt where
  | transportErr : Nat → Attempt
  | httpOk : Attempt
  | response : Int → Attempt
  deriving DecidableEq, Repr

/-- Outcome of `Client.write`: success, a transport fault surfaced
immediately, or the final `Response` returned as the error. -/
inductive WriteOutcome where
  | success : WriteOutcome
  | transport : Nat → WriteOutcome
  | remote : Int → WriteOutcome
  deriving DecidableEq, Repr

/-- Observable behaviour of one `Client.write` call: its outcome, the
number of request attempts issued, and the number of fixed-interval
`time.Sleep(retryWaitTime)` waits performed. -/
structure WriteRes where
  outcome : WriteOutcome
  attempts : Nat
  waits : Nat
  deriving DecidableEq, Repr

/-- The `RETRY` loop of `Client.write` (hec.go lines 396-428): `att`
gives the observed outcome of each attempt (indexed by the value of the
`retries` counter, which is also the number of sleeps performed so
far); `maxRetries` is `hec.retries`. -/
def goWrite (maxRetries : Nat) (att : Nat → Attempt) (retries : Nat) : WriteRes :=
  match att retries with
  | Attempt.transportErr e => ⟨WriteOutcome.transport e, retries + 1, retries⟩
  | Attempt.httpOk => ⟨WriteOutcome.success, retries + 1, retries⟩
  | Attempt.response code =>
    if h : retriable code = true ∧ retries < maxRetries then
      goWrite maxRetries att (retries + 1)
    else ⟨WriteOutcome.remote code, retries + 1, retries⟩
  termination_by maxRetries - retries
  decreasing_by omega

/-- `Client.write` (hec.go lines 396-428): the retry counter starts at
zero for every call, hence for every new request body. -/
def write (maxRetries : Nat) (att : Nat → Attempt) : WriteRes :=
  goWrite maxRetries att 0

/-- The oracle of an HTTP layer whose every `hec.write` call succeeds. -/
def sendOk : Nat → Option Nat := fun _ => none

/-- The oversize index list a caller observes from a run: the index
list of the returned `ErrEventTooLong`, or `[]` when no such error is
returned. -/
def reported (r : Run) : List Nat :=
  match r.result with
  | Outcome.tooLong l => l
  | _ => []

/-- Concatenation of lines, each followed by exactly one newline byte;
this is the shape in which `WriteRaw` buffers accepted lines. -/
def joinLines (lines : List (List Nat)) : List Nat :=
  (lines.map (fun l => l ++ [10])).flatten

/-- The records of a batch that actually enter a request body: the
non-empty records whose encoding does not exceed `maxLen`. -/
def acceptedBatch (maxLen : Nat) : List Event → List Event
  | [] => []
  | ev :: rest =>
    if ev.empty = false ∧ ev.encoded.length ≤ maxLen then
      ev :: acceptedBatch maxLen rest
    else acceptedBatch maxLen rest

/-- The scanned lines that actually enter a request body: the lines
whose content does not exceed `maxLen`. -/
def acceptedRaw (maxLen : Nat) : List (List Nat) → List (List Nat)
  | [] => []
  | l :: rest =>
    if l.length ≤ maxLen then l :: acceptedRaw maxLen rest
    else acceptedRaw maxLen rest

/-- Index set claimed by the spec for batch-mode oversize reporting:
every record (empty or not) whose encoding is strictly longer than
`maxLen`, at its original 0-based position. -/
def oversizeIndexes (maxLen : Nat) : Nat → List Event → List Nat
  | _, [] => []
  | i, ev :: rest =>
    if maxLen < ev.encoded.length then i :: oversizeIndexes maxLen (i + 1) rest
    else oversizeIndexes maxLen (i + 1) rest

/-- Index set actually reported by `WriteBatch`: the non-empty records
whose encoding is strictly longer than `maxLen`, at their original
0-based positions. -/
def batchOversize (maxLen : Nat) : Nat → List Event → List Nat
  | _, [] => []
  | i, ev :: rest =>
    if ev.empty = false ∧ maxLen < ev.encoded.length then
      i :: batchOversize maxLen (i + 1) rest
    else batchOversize maxLen (i + 1) rest

/-- Line-number set reported by `WriteRaw`: the lines (blank lines
included) whose content is strictly longer than `maxLen`, numbered from
the given starting line number. -/
def rawOversize (maxLen : Nat) : Nat → List (List Nat) → List Nat
  | _, [] => []
  | n, l :: rest =>
    if maxLen < l.length then n :: rawOversize maxLen (n + 1) rest
    else rawOversize maxLen (n + 1) rest

@[simp]
lemma endRun_sent (sent : List (List Nat)) (tooLongs : List Nat) :
    (endRun sent tooLongs).sent = sent := by
  unfold endRun
  split <;> rfl

@[simp]
lemma reported_endRun (sent : List (List Nat)) (tooLongs : List Nat) :
    reported (endRun sent tooLongs) = tooLongs := by
  unfold endRun
  split
  · rfl
  · next h =>
    cases tooLongs with
    | nil => rfl
    | cons a t => simp at h

lemma goBatch_bounds (maxLen : Nat) (res : Nat → Option Nat) :
    ∀ (rest : List Event) (index : Nat) (buffer tooLongs : List Nat)
      (sent : List (List Nat)),
      buffer.length ≤ maxLen →
      (∀ b ∈ sent, 1 ≤ b.length ∧ b.length ≤ maxLen) →
      ∀ b ∈ (goBatch maxLen res rest index buffer tooLongs sent).sent,
        1 ≤ b.length ∧ b.length ≤ maxLen := by
  intro rest
  induction rest with
  | nil =>
    intro index buffer tooLongs sent hb hs b hmem
    by_cases hbuf : 0 < buffer.length
    · cases hres : res sent.length with
      | some e =>
        simp only [goBatch, hbuf, if_true, hres] at hmem
        simp only [List.mem_append, List.mem_singleton] at hmem
        rcases hmem with hmem | rfl
        · exact hs b hmem
        · exact ⟨hbuf, hb⟩
      | none =>
        simp only [goBatch, hbuf, if_true, hres, endRun_sent] at hmem
        simp only [List.mem_append, List.mem_singleton] at hmem
        rcases hmem with hmem | rfl
        · exact hs b hmem
        · exact ⟨hbuf, hb⟩
    · simp only [goBatch, hbuf, if_false, endRun_sent] at hmem
      exact hs b hmem
  | cons ev rest ih =>
    intro index buffer tooLongs sent hb hs b hmem
    by_cases hemp : ev.empty = true
    · simp only [goBatch, hemp, if_true] at hmem
      exact ih _ _ _ _ hb hs b hmem
    · by_cases hov : maxLen < ev.encoded.length
      · simp only [goBatch, hemp, Bool.false_eq_true, if_false, hov, if_true] at hmem
        exact ih _ _ _ _ hb hs b hmem
      · by_cases hfl : maxLen < buffer.length + ev.encoded.length
        · cases hres : res sent.length with
          | some e =>
            simp only [goBatch, hemp, Bool.false_eq_true, if_false, hov, hfl,
              if_true, hres, List.mem_append, List.mem_singleton] at hmem
            rcases hmem with hmem | rfl
            · exact hs b hmem
            · refine ⟨?_, hb⟩
              omega
          | none =>
            simp only [goBatch, hemp, Bool.false_eq_true, if_false, hov, hfl, if_true, hres] at hmem
            refine ih _ _ _ _ (by omega) ?_ b hmem
            intro b' hb'
            simp only [List.mem_append, List.mem_singleton] at hb'
            rcases hb' with hb' | rfl
            · exact hs b' hb'
            · refine ⟨?_, hb⟩
              omega
        · simp only [goBatch, hemp, Bool.false_eq_true, if_false, hov, hfl] at hmem
          refine ih _ _ _ _ ?_ hs b hmem
          simp only [List.length_append]
          omega

lemma goRaw_bounds (maxLen : Nat) (res : Nat → Option Nat) :
    ∀ (rest : List (List Nat)) (n : Nat) (buf tooLongs : List Nat)
      (sent : List (List Nat)),
      (∀ l ∈ rest, l.length ≠ maxLen) →
      buf.length ≤ maxLen →
      (∀ b ∈ sent, 1 ≤ b.length ∧ b.length ≤ maxLen) →
      ∀ b ∈ (goRaw maxLen res rest n buf tooLongs sent).sent,
        1 ≤ b.length ∧ b.length ≤ maxLen := by
  intro rest
  induction rest with
  | nil =>
    intro n buf tooLongs sent _ hb hs b hmem
    by_cases hbuf : 0 < buf.length
    · cases hres : res sent.length with
      | some e =>
        simp only [goRaw, hbuf, if_true, hres] at hmem
        simp only [List.mem_append, List.mem_singleton] at hmem
        rcases hmem with hmem | rfl
        · exact hs b hmem
        · exact ⟨hbuf, hb⟩
      | none =>
        simp only [goRaw, hbuf, if_true, hres, endRun_sent] at hmem
        simp only [List.mem_append, List.mem_singleton] at hmem
        rcases hmem with hmem | rfl
        · exact hs b hmem
        · exact ⟨hbuf, hb⟩
    · simp only [goRaw, hbuf, if_false, endRun_sent] at hmem
      exact hs b hmem
  | cons line rest ih =>
    intro n buf tooLongs sent hlines hb hs b hmem
    have hline : line.length ≠ maxLen := hlines line (List.mem_cons_self line rest)
    have hrest : ∀ l ∈ rest, l.length ≠ maxLen :=
      fun l hl => hlines l (List.mem_cons_of_mem line hl)
    by_cases hov : maxLen < line.length
    · simp only [goRaw, hov, if_true] at hmem
      exact ih _ _ _ _ hrest hb hs b hmem
    · by_cases hfl : maxLen < buf.length + line.length + 1
      · cases hres : res sent.length with
        | some e =>
          simp only [goRaw, hov, if_false, hfl, if_true, hres,
            List.mem_append, List.mem_singleton] at hmem
          rcases hmem with hmem | rfl
          · exact hs b hmem
          · refine ⟨?_, hb⟩
            omega
        | none =>
          simp only [goRaw, hov, if_false, hfl, if_true, hres] at hmem
          refine ih _ _ _ _ hrest (by simp; omega) ?_ b hmem
          intro b' hb'
          simp only [List.mem_append, List.mem_singleton] at hb'
          rcases hb' with hb' | rfl
          · exact hs b' hb'
          · refine ⟨?_, hb⟩
            omega
      · simp only [goRaw, hov, if_false, hfl] at hmem
        refine ih _ _ _ _ hrest ?_ hs b hmem
        simp only [List.length_append, List.length_singleton]
        omega

lemma goWrite_transportErr (maxRetries : Nat) (att : Nat → Attempt)
    (retries : Nat) (e : Nat) (h : att retries = Attempt.transportErr e) :
    goWrite maxRetries att retries =
      ⟨WriteOutcome.transport e, retries + 1, retries⟩ := by
  rw [goWrite, h]

lemma goWrite_httpOk (maxRetries : Nat) (att : Nat → Attempt)
    (retries : Nat) (h : att retries = Attempt.httpOk) :
    goWrite maxRetries att retries =
      ⟨WriteOutcome.success, retries + 1, retries⟩ := by
  rw [goWrite, h]

lemma goWrite_response (maxRetries : Nat) (att : Nat → Attempt)
    (retries : Nat) (code : Int) (h : att retries = Attempt.response code) :
    goWrite maxRetries att retries =
      if _h : retriable code = true ∧ retries < maxRetries then
        goWrite maxRetries att (retries + 1)
      else ⟨WriteOutcome.remote code, retries + 1, retries⟩ := by
  rw [goWrite, h]

/-- C1, counterexample: with `maxLength = 1` and raw input consisting of
the single line `"A"` (one byte, exactly `maxLength`), `WriteRaw`
transmits an empty request body followed by a 2-byte body, so it is not
the case that every transmitted body has byte length between 1 and
`maxLength`. -/
theorem raw_exact_max_line_violates_bounds :
    ¬ ∀ b ∈ (WriteRaw 1 sendOk [65]).sent, 1 ≤ b.length ∧ b.length ≤ 1 := by
  decide

/-- C1, amended: every request body transmitted by `WriteBatch` has
byte length between 1 and `maxLength`; the same holds for `WriteRaw`
provided no scanned line has length exactly `maxLength` (a line of
exactly `maxLength` bytes makes `WriteRaw` transmit an empty body
and a body of `maxLength + 1` bytes). -/
theorem batch_raw_body_length_bounds :
    ∀ (maxLen : Nat) (res res' : Nat → Option Nat) (events : List Event)
      (input : List Nat),
      (∀ l ∈ scanLines input, l.length ≠ maxLen) →
      (∀ b ∈ (WriteBatch maxLen res events).sent,
        1 ≤ b.length ∧ b.length ≤ maxLen) ∧
      (∀ b ∈ (WriteRaw maxLen res' input).sent,
        1 ≤ b.length ∧ b.length ≤ maxLen) := by
  intro maxLen res res' events input hlines
  constructor
  · unfold WriteBatch
    split
    · intro b hb
      simp at hb
    · exact goBatch_bounds maxLen res events 0 [] [] []
        (by simp) (by intro b hb; simp at hb)
  · exact goRaw_bounds maxLen res' (scanLines input) 1 [] [] [] hlines
      (by simp) (by intro b hb; simp at hb)

/-- Witness for the amended C1 at a concrete input. -/
theorem batch_raw_body_length_bounds_witness :
    (∀ b ∈ (WriteBatch 3 sendOk [⟨false, [65, 66]⟩]).sent,
      1 ≤ b.length ∧ b.length ≤ 3) ∧
    (∀ b ∈ (WriteRaw 3 sendOk [65, 66, 10, 67]).sent,
      1 ≤ b.length ∧ b.length ≤ 3) :=
  batch_raw_body_length_bounds 3 sendOk sendOk [⟨false, [65, 66]⟩]
    [65, 66, 10, 67] (by decide)

/-- C5: `retriable` returns `true` exactly for `StatusServerBusy` (9)
and `StatusInternalServerError` (8), and for every other response code
`write` returns the remote response as a permanent failure after
exactly one attempt with zero waits, regardless of the configured retry
limit. -/
theorem retriable_iff_and_permanent_immediate :
    (∀ c : Int, retriable c = true ↔
      (c = StatusServerBusy ∨ c = StatusInternalServerError)) ∧
    ∀ (maxRetries : Nat) (att : Nat → Attempt) (c : Int),
      att 0 = Attempt.response c → retriable c = false →
      write maxRetries att = ⟨WriteOutcome.remote c, 1, 0⟩ := by
  constructor
  · intro c
    simp [retriable]
  · intro maxRetries att c h0 hc
    unfold write
    rw [goWrite_response maxRetries att 0 c h0]
    rw [dif_neg (by simp [hc])]

/-- Witness for C5: an invalid-token response (code 4) on the first
attempt is permanent, with one attempt and zero waits even though the
retry limit is 5. -/
theorem retriable_permanent_witness :
    retriable StatusInvalidToken = false ∧
    write 5 (fun _ => Attempt.response StatusInvalidToken) =
      ⟨WriteOutcome.remote StatusInvalidToken, 1, 0⟩ :=
  ⟨by decide,
    retriable_iff_and_permanent_immediate.2 5
      (fun _ => Attempt.response StatusInvalidToken) StatusInvalidToken rfl
      (by decide)⟩

/-- C6: a body whose transmissions receive `StatusServerBusy` (9) on
the first two attempts and HTTP success on the third, with retry limit
at least 2, makes `write` succeed with exactly 3 attempts and exactly 2
fixed-interval waits (the retry counter of `write` starting at zero for
each call, hence for each body). -/
theorem retry_twice_then_success :
    ∀ (maxRetries : Nat) (att : Nat → Attempt),
      att 0 = Attempt.response StatusServerBusy →
      att 1 = Attempt.response StatusServerBusy →
      att 2 = Attempt.httpOk →
      2 ≤ maxRetries →
      write maxRetries att = ⟨WriteOutcome.success, 3, 2⟩ := by
  intro maxRetries att h0 h1 h2 hm
  unfold write
  rw [goWrite_response maxRetries att 0 StatusServerBusy h0]
  rw [dif_pos ⟨by decide, by omega⟩]
  rw [goWrite_response maxRetries att 1 StatusServerBusy h1]
  rw [dif_pos ⟨by decide, by omega⟩]
  rw [goWrite_httpOk maxRetries att 2 h2]

/-- Witness for C6 at a concrete attempt oracle and retry limit 2. -/
theorem retry_twice_then_success_witness :
    write 2 (fun n => if n < 2 then Attempt.response StatusServerBusy
      else Attempt.httpOk) = ⟨WriteOutcome.success, 3, 2⟩ :=
  retry_twice_then_success 2 _ rfl rfl rfl (by decide)

lemma goBatch_allEmpty (maxLen : Nat) (res : Nat → Option Nat) :
    ∀ (rest : List Event), (∀ e ∈ rest, e.empty = true) →
      ∀ (index : Nat) (buffer tooLongs : List Nat) (sent : List (List Nat)),
        goBatch maxLen res rest index buffer tooLongs sent =
        goBatch maxLen res [] 0 buffer tooLongs sent := by
  intro rest
  induction rest with
  | nil => intro _ _ _ _ _; rfl
  | cons ev rest ih =>
    intro hall index buffer tooLongs sent
    have hemp : ev.empty = true := hall ev (List.mem_cons_self ev rest)
    conv_lhs => rw [goBatch]
    rw [if_pos hemp]
    exact ih (fun e he => hall e (List.mem_cons_of_mem ev he)) _ _ _ _

/-- C8: a batch whose records are all empty (including the empty batch)
returns success and transmits nothing. -/
theorem all_empty_batch_noop :
    ∀ (maxLen : Nat) (res : Nat → Option Nat) (events : List Event),
      (∀ e ∈ events, e.empty = true) →
      WriteBatch maxLen res events = ⟨[], Outcome.ok⟩ := by
  intro maxLen res events hall
  unfold WriteBatch
  split
  · rfl
  · rw [goBatch_allEmpty maxLen res events hall]
    rfl

/-- Witness for C8 at a concrete all-empty batch. -/
theorem all_empty_batch_noop_witness :
    WriteBatch 5 sendOk [⟨true, [65]⟩, ⟨true, []⟩] = ⟨[], Outcome.ok⟩ :=
  all_empty_batch_noop 5 sendOk [⟨true, [65]⟩, ⟨true, []⟩] (by decide)

/-- C10: `WriteEvent` returns success without any request when the
event is empty, returns `ErrEventTooLong` with a `nil` index list
without any request when the encoding exceeds `maxLength`, and
otherwise transmits the encoded event as one body. -/
theorem writeEvent_cases :
    ∀ (maxLen : Nat) (res : Nat → Option Nat) (ev : Event),
      (ev.empty = true → WriteEvent maxLen res ev = ⟨[], Outcome.ok⟩) ∧
      (ev.empty = false → maxLen < ev.encoded.length →
        WriteEvent maxLen res ev = ⟨[], Outcome.tooLong []⟩) ∧
      (ev.empty = false → ev.encoded.length ≤ maxLen →
        (WriteEvent maxLen res ev).sent = [ev.encoded]) := by
  intro maxLen res ev
  refine ⟨fun hemp => ?_, fun hemp hov => ?_, fun hemp hov => ?_⟩
  · simp [WriteEvent, hemp]
  · simp [WriteEvent, hemp, hov]
  · unfold WriteEvent
    rw [if_neg (by simp [hemp]), if_neg (by omega)]
    cases res 0 <;> rfl

/-- Witness for C10 at concrete events. -/
theorem writeEvent_cases_witness :
    WriteEvent 1 sendOk ⟨true, [65]⟩ = ⟨[], Outcome.ok⟩ ∧
    WriteEvent 1 sendOk ⟨false, [65, 66]⟩ = ⟨[], Outcome.tooLong []⟩ ∧
    (WriteEvent 1 sendOk ⟨false, [65]⟩).sent = [[65]] :=
  ⟨(writeEvent_cases 1 sendOk ⟨true, [65]⟩).1 rfl,
   (writeEvent_cases 1 sendOk ⟨false, [65, 66]⟩).2.1 rfl (by decide),
   (writeEvent_cases 1 sendOk ⟨false, [65]⟩).2.2 rfl (by decide)⟩

@[simp]
lemma joinLines_nil : joinLines [] = [] := rfl

@[simp]
lemma joinLines_cons (l : List Nat) (rest : List (List Nat)) :
    joinLines (l :: rest) = l ++ [10] ++ joinLines rest := by
  simp [joinLines]

lemma joinLines_append (a b : List (List Nat)) :
    joinLines (a ++ b) = joinLines a ++ joinLines b := by
  simp [joinLines]

lemma goBatch_flatten (maxLen : Nat) :
    ∀ (rest : List Event) (index : Nat) (buffer tooLongs : List Nat)
      (sent : List (List Nat)),
      ((goBatch maxLen sendOk rest index buffer tooLongs sent).sent).flatten =
        sent.flatten ++ buffer ++
          ((acceptedBatch maxLen rest).map Event.encoded).flatten := by
  intro rest
  induction rest with
  | nil =>
    intro index buffer tooLongs sent
    by_cases hbuf : 0 < buffer.length
    · simp [goBatch, hbuf, sendOk, acceptedBatch]
    · have : buffer = [] := by
        cases buffer with
        | nil => rfl
        | cons a t => simp at hbuf
      simp [goBatch, hbuf, this, acceptedBatch]
  | cons ev rest ih =>
    intro index buffer tooLongs sent
    by_cases hemp : ev.empty = true
    · have hcond : ¬ (ev.empty = false ∧ ev.encoded.length ≤ maxLen) := by
        simp [hemp]
      simp only [goBatch, hemp, if_true, acceptedBatch, hcond, if_false]
      exact ih _ _ _ _
    · by_cases hov : maxLen < ev.encoded.length
      · have hle : ¬ ev.encoded.length ≤ maxLen := by omega
        simp only [goBatch, hemp, Bool.false_eq_true, if_false, hov, if_true,
          acceptedBatch, hle, and_false]
        exact ih _ _ _ _
      · have hcond : ev.empty = false ∧ ev.encoded.length ≤ maxLen :=
          ⟨by simpa using hemp, by omega⟩
        by_cases hfl : maxLen < buffer.length + ev.encoded.length
        · simp only [goBatch, hemp, Bool.false_eq_true, if_false, hov, hfl,
            if_true, sendOk, acceptedBatch, hcond]
          rw [ih]
          simp [List.append_assoc]
        · simp only [goBatch, hemp, Bool.false_eq_true, if_false, hov, hfl,
            acceptedBatch, hcond, if_true]
          rw [ih]
          simp [List.append_assoc]

/-- C2: with every transmission succeeding, the total byte length of
all request bodies emitted by `WriteBatch` equals the total encoded
length of the non-empty records whose encoding does not exceed
`maxLength`. -/
theorem batch_bytes_conserved :
    ∀ (maxLen : Nat) (events : List Event),
      (((WriteBatch maxLen sendOk events).sent).map List.length).sum =
        ((acceptedBatch maxLen events).map
          (fun e => e.encoded.length)).sum := by
  intro maxLen events
  unfold WriteBatch
  split
  · next hlen =>
    have : events = [] := List.length_eq_zero.mp hlen
    subst this
    simp [acceptedBatch]
  · rw [← List.length_flatten, goBatch_flatten maxLen events 0 [] [] []]
    simp only [List.flatten_nil, List.nil_append, List.append_nil,
      List.length_flatten, List.map_map]
    rfl

/-- C3, counterexample: an empty record whose encoding is longer than
`maxLength` (realizable in Go whenever `maxLength` is smaller than the
fixed serialization of an empty event) is skipped before the length
check, so its position is not reported: with `maxLength = 1` and one
empty record of encoded length 2, `WriteBatch` reports no oversize
index although the claimed set of positions is `[0]`. -/
theorem empty_long_record_not_reported :
    ¬ reported (WriteBatch 1 sendOk [⟨true, [65, 66]⟩]) =
        oversizeIndexes 1 0 [⟨true, [65, 66]⟩] := by
  decide

lemma goBatch_reported (maxLen : Nat) :
    ∀ (rest : List Event) (index : Nat) (buffer tooLongs : List Nat)
      (sent : List (List Nat)),
      reported (goBatch maxLen sendOk rest index buffer tooLongs sent) =
        tooLongs ++ batchOversize maxLen index rest := by
  intro rest
  induction rest with
  | nil =>
    intro index buffer tooLongs sent
    by_cases hbuf : 0 < buffer.length <;>
      simp [goBatch, hbuf, sendOk, batchOversize]
  | cons ev rest ih =>
    intro index buffer tooLongs sent
    by_cases hemp : ev.empty = true
    · have hcond : ¬ (ev.empty = false ∧ maxLen < ev.encoded.length) := by
        simp [hemp]
      simp only [goBatch, hemp, if_true, batchOversize, hcond, if_false]
      exact ih _ _ _ _
    · by_cases hov : maxLen < ev.encoded.length
      · have hcond : ev.empty = false ∧ maxLen < ev.encoded.length :=
          ⟨by simpa using hemp, hov⟩
        simp only [goBatch, hemp, Bool.false_eq_true, if_false, hov, if_true,
          batchOversize, hcond]
        rw [ih]
        simp
      · have hcond : ¬ (ev.empty = false ∧ maxLen < ev.encoded.length) := by
          intro h
          omega
        by_cases hfl : maxLen < buffer.length + ev.encoded.length
        · simp only [goBatch, hemp, Bool.false_eq_true, if_false, hov, hfl,
            if_true, sendOk, batchOversize, hcond]
          exact ih _ _ _ _
        · simp only [goBatch, hemp, Bool.false_eq_true, if_false, hov, hfl,
            batchOversize, hcond, if_true]
          exact ih _ _ _ _

lemma batchOversize_ge (maxLen : Nat) :
    ∀ (rest : List Event) (i : Nat), ∀ x ∈ batchOversize maxLen i rest, i ≤ x := by
  intro rest
  induction rest with
  | nil => intro i x hx; simp [batchOversize] at hx
  | cons ev rest ih =>
    intro i x hx
    unfold batchOversize at hx
    split at hx
    · rcases List.mem_cons.mp hx with rfl | hx
      · exact Nat.le_refl x
      · exact Nat.le_of_succ_le (ih (i + 1) x hx)
    · exact Nat.le_of_succ_le (ih (i + 1) x hx)

lemma batchOversize_pairwise (maxLen : Nat) :
    ∀ (rest : List Event) (i : Nat),
      List.Pairwise (fun a b => a < b) (batchOversize maxLen i rest) := by
  intro rest
  induction rest with
  | nil => intro i; simp [batchOversize]
  | cons ev rest ih =>
    intro i
    unfold batchOversize
    split
    · exact List.pairwise_cons.mpr
        ⟨fun x hx => Nat.lt_of_succ_le (batchOversize_ge maxLen rest (i + 1) x hx),
         ih (i + 1)⟩
    · exact ih (i + 1)

/-- C3, amended: with every transmission succeeding, the oversize index
list reported by `WriteBatch` is exactly the list of original 0-based
positions (positions counted including empty records) of the non-empty
records whose encoding is strictly longer than `maxLength`, in strictly
ascending order; empty records are skipped before oversize detection
and are never reported, whatever their encoded length. -/
theorem batch_oversize_report :
    ∀ (maxLen : Nat) (events : List Event),
      reported (WriteBatch maxLen sendOk events) =
        batchOversize maxLen 0 events ∧
      List.Pairwise (fun a b => a < b)
        (reported (WriteBatch maxLen sendOk events)) := by
  intro maxLen events
  have hrep : reported (WriteBatch maxLen sendOk events) =
      batchOversize maxLen 0 events := by
    unfold WriteBatch
    split
    · next hlen =>
      have : events = [] := List.length_eq_zero.mp hlen
      subst this
      simp [reported, batchOversize]
    · rw [goBatch_reported maxLen events 0 [] [] []]
      simp
  exact ⟨hrep, hrep ▸ batchOversize_pairwise maxLen events 0⟩

lemma goRaw_reported (maxLen : Nat) :
    ∀ (rest : List (List Nat)) (n : Nat) (buf tooLongs : List Nat)
      (sent : List (List Nat)),
      reported (goRaw maxLen sendOk rest n buf tooLongs sent) =
        tooLongs ++ rawOversize maxLen n rest := by
  intro rest
  induction rest with
  | nil =>
    intro n buf tooLongs sent
    by_cases hbuf : 0 < buf.length <;>
      simp [goRaw, hbuf, sendOk, rawOversize]
  | cons line rest ih =>
    intro n buf tooLongs sent
    by_cases hov : maxLen < line.length
    · simp only [goRaw, hov, if_true, rawOversize]
      rw [ih]
      simp
    · by_cases hfl : maxLen < buf.length + line.length + 1
      · simp only [goRaw, hov, if_false, hfl, if_true, sendOk, rawOversize]
        exact ih _ _ _ _
      · simp only [goRaw, hov, if_false, hfl, rawOversize, if_true]
        exact ih _ _ _ _

lemma goRaw_flatten (maxLen : Nat) :
    ∀ (rest : List (List Nat)) (n : Nat) (buf tooLongs : List Nat)
      (sent : List (List Nat)),
      ((goRaw maxLen sendOk rest n buf tooLongs sent).sent).flatten =
        sent.flatten ++ buf ++ joinLines (acceptedRaw maxLen rest) := by
  intro rest
  induction rest with
  | nil =>
    intro n buf tooLongs sent
    by_cases hbuf : 0 < buf.length
    · simp [goRaw, hbuf, sendOk, acceptedRaw]
    · have : buf = [] := by
        cases buf with
        | nil => rfl
        | cons a t => simp at hbuf
      simp [goRaw, hbuf, this, acceptedRaw]
  | cons line rest ih =>
    intro n buf tooLongs sent
    by_cases hov : maxLen < line.length
    · have hcond : ¬ line.length ≤ maxLen := by omega
      simp only [goRaw, hov, if_true, acceptedRaw, hcond, if_false]
      exact ih _ _ _ _
    · have hcond : line.length ≤ maxLen := by omega
      by_cases hfl : maxLen < buf.length + line.length + 1
      · simp only [goRaw, hov, if_false, hfl, if_true, sendOk, acceptedRaw,
          hcond]
        rw [ih]
        simp [List.append_assoc]
      · simp only [goRaw, hov, if_false, hfl, acceptedRaw, hcond, if_true]
        rw [ih]
        simp [List.append_assoc]

/-- C4: with every transmission succeeding, the oversize line numbers
reported by `WriteRaw` are exactly the 1-based numbers (counted over
every scanned line, blank lines included) of the lines whose content,
line terminator excluded, is strictly longer than `maxLength`; and the
bytes transmitted are exactly the non-oversize lines each followed by
one terminator, so an oversize line is never transmitted, truncated or
split across requests. -/
theorem raw_oversize_report_and_bytes :
    ∀ (maxLen : Nat) (input : List Nat),
      reported (WriteRaw maxLen sendOk input) =
        rawOversize maxLen 1 (scanLines input) ∧
      ((WriteRaw maxLen sendOk input).sent).flatten =
        joinLines (acceptedRaw maxLen (scanLines input)) := by
  intro maxLen input
  constructor
  · rw [WriteRaw, goRaw_reported maxLen (scanLines input) 1 [] [] []]
    simp
  · rw [WriteRaw, goRaw_flatten maxLen (scanLines input) 1 [] [] []]
    simp

lemma joinLines_nil_iff (g : List (List Nat)) : joinLines g = [] ↔ g = [] := by
  cases g <;> simp

lemma mem_of_getLast?_eq (l : List Nat) (a : Nat) (h : l.getLast? = some a) :
    a ∈ l := by
  have hx : a ∈ l.getLast? := h
  obtain ⟨hne, rfl⟩ := List.mem_getLast?_eq_getLast hx
  exact List.getLast_mem hne

lemma dropCR_of_not_mem (l : List Nat) (h13 : 13 ∉ l) : dropCR l = l := by
  unfold dropCR
  rw [if_neg]
  intro h
  exact h13 (mem_of_getLast?_eq l 13 h)

lemma joinLines_scanGo :
    ∀ (l cur : List Nat), 13 ∉ cur → 13 ∉ l → cur ++ l ≠ [] →
      (cur ++ l).getLast? ≠ some 10 →
      joinLines (scanGo cur l) = cur ++ l ++ [10] := by
  intro l
  induction l with
  | nil =>
    intro cur h13c _ hne hlast
    have hcur : cur ≠ [] := by simpa using hne
    simp [scanGo, hcur, dropCR_of_not_mem cur h13c]
  | cons c rest ih =>
    intro cur h13c h13l hne hlast
    have h13rest : 13 ∉ rest := fun h => h13l (List.mem_cons_of_mem c h)
    by_cases hc : c = 10
    · subst hc
      have hrest : rest ≠ [] := by
        intro h
        subst h
        apply hlast
        rw [List.getLast?_append_cons]
        rfl
      obtain ⟨r, rs, rfl⟩ := List.exists_cons_of_ne_nil hrest
      have hlast' : (([] : List Nat) ++ r :: rs).getLast? ≠ some 10 := by
        simp only [List.nil_append]
        intro h
        apply hlast
        rw [List.getLast?_append_cons, List.getLast?_cons_cons]
        exact h
      rw [show scanGo cur (10 :: r :: rs) = dropCR cur :: scanGo [] (r :: rs) by
        rw [scanGo, if_pos rfl]]
      rw [joinLines_cons, dropCR_of_not_mem cur h13c]
      rw [ih [] (by simp) h13rest (by simp) hlast']
      simp
    · have hc13 : c ≠ 13 := by
        intro h
        exact h13l (h ▸ List.mem_cons_self c rest)
      have h13c' : 13 ∉ cur ++ [c] := by
        intro h
        rcases List.mem_append.mp h with h | h
        · exact h13c h
        · exact hc13 (List.mem_singleton.mp h).symm
      have hlast2 : (cur ++ [c] ++ rest).getLast? ≠ some 10 := by
        rw [List.append_assoc, List.singleton_append]
        exact hlast
      have hne2 : cur ++ [c] ++ rest ≠ [] := by simp
      rw [show scanGo cur (c :: rest) = scanGo (cur ++ [c]) rest by
        rw [scanGo, if_neg hc]]
      rw [ih (cur ++ [c]) h13c' h13rest hne2 hlast2]
      simp

lemma flatten_map_joinLines (groups : List (List (List Nat))) :
    (groups.map joinLines).flatten = joinLines groups.flatten := by
  induction groups with
  | nil => rfl
  | cons g gs ih =>
    simp only [List.map_cons, List.flatten_cons, ih, joinLines_append]

lemma acceptedRaw_all (maxLen : Nat) :
    ∀ (lines : List (List Nat)), (∀ l ∈ lines, l.length ≤ maxLen) →
      acceptedRaw maxLen lines = lines := by
  intro lines
  induction lines with
  | nil => intro _; rfl
  | cons l rest ih =>
    intro hall
    unfold acceptedRaw
    rw [if_pos (hall l (List.mem_cons_self l rest))]
    rw [ih (fun x hx => hall x (List.mem_cons_of_mem l hx))]

lemma goRaw_groups (maxLen : Nat) :
    ∀ (rest : List (List Nat)) (n : Nat) (gbuf : List (List Nat))
      (tooLongs : List Nat) (sent : List (List Nat)),
      (∀ l ∈ gbuf, l.length ≤ maxLen) →
      ∃ groups : List (List (List Nat)),
        (goRaw maxLen sendOk rest n (joinLines gbuf) tooLongs sent).sent =
          sent ++ groups.map joinLines ∧
        groups.flatten = gbuf ++ acceptedRaw maxLen rest ∧
        ∀ g ∈ groups, ∀ l ∈ g, l.length ≤ maxLen := by
  intro rest
  induction rest with
  | nil =>
    intro n gbuf tooLongs sent hg
    by_cases hbuf : 0 < (joinLines gbuf).length
    · refine ⟨[gbuf], ?_, ?_, ?_⟩
      · simp [goRaw, hbuf, sendOk]
      · simp [acceptedRaw]
      · simpa using hg
    · have hjl : joinLines gbuf = [] :=
        List.length_eq_zero.mp (by omega)
      have hgb : gbuf = [] := (joinLines_nil_iff gbuf).mp hjl
      refine ⟨[], ?_, ?_, ?_⟩
      · simp [goRaw, hbuf]
      · simp [hgb, acceptedRaw]
      · simp
  | cons line rest ih =>
    intro n gbuf tooLongs sent hg
    by_cases hov : maxLen < line.length
    · obtain ⟨groups, h1, h2, h3⟩ := ih (n + 1) gbuf (tooLongs ++ [n]) sent hg
      refine ⟨groups, ?_, ?_, h3⟩
      · simp only [goRaw, hov, if_true]
        exact h1
      · rw [h2, acceptedRaw]
        rw [if_neg (by omega)]
    · have hle : line.length ≤ maxLen := by omega
      by_cases hfl : maxLen < (joinLines gbuf).length + line.length + 1
      · obtain ⟨groups, h1, h2, h3⟩ := ih (n + 1) [line] tooLongs
          (sent ++ [joinLines gbuf]) (by simpa using hle)
        refine ⟨gbuf :: groups, ?_, ?_, ?_⟩
        · simp only [goRaw, hov, if_false, hfl, if_true, sendOk]
          rw [show joinLines [line] = line ++ [10] by simp] at h1
          rw [h1]
          simp
        · simp only [List.flatten_cons, h2]
          rw [acceptedRaw, if_pos hle]
          simp
        · intro g hgmem
          rcases List.mem_cons.mp hgmem with rfl | hgmem
          · exact hg
          · exact h3 g hgmem
      · obtain ⟨groups, h1, h2, h3⟩ := ih (n + 1) (gbuf ++ [line]) tooLongs sent
          (by
            intro l hl
            rcases List.mem_append.mp hl with hl | hl
            · exact hg l hl
            · rw [List.mem_singleton.mp hl]
              exact hle)
        refine ⟨groups, ?_, ?_, h3⟩
        · simp only [goRaw, hov, if_false, hfl, if_true]
          rw [show joinLines gbuf ++ line ++ [10] = joinLines (gbuf ++ [line]) by
            rw [joinLines_append]
            simp]
          exact h1
        · rw [h2, acceptedRaw, if_pos hle]
          simp

/-- C9: every request body `WriteRaw` transmits is a concatenation of
non-oversize scanned lines, each followed by exactly one newline byte;
in particular, when the input does not end with a newline (and every
line fits), the transmitted bytes are the input plus one appended
trailing newline. -/
theorem raw_bodies_are_terminated_lines :
    ∀ (maxLen : Nat) (input : List Nat),
      (∀ b ∈ (WriteRaw maxLen sendOk input).sent,
        ∃ g : List (List Nat),
          (∀ l ∈ g, l.length ≤ maxLen) ∧ b = joinLines g) ∧
      (input ≠ [] → input.getLast? ≠ some 10 → 13 ∉ input →
        (∀ l ∈ scanLines input, l.length ≤ maxLen) →
        ((WriteRaw maxLen sendOk input).sent).flatten = input ++ [10]) := by
  intro maxLen input
  obtain ⟨groups, h1, h2, h3⟩ :=
    goRaw_groups maxLen (scanLines input) 1 [] [] [] (by simp)
  have h1' : (WriteRaw maxLen sendOk input).sent = groups.map joinLines := by
    rw [WriteRaw]
    simpa using h1
  constructor
  · intro b hb
    rw [h1'] at hb
    obtain ⟨g, hgmem, rfl⟩ := List.mem_map.mp hb
    exact ⟨g, h3 g hgmem, rfl⟩
  · intro hne hlast h13 hall
    rw [h1', flatten_map_joinLines, h2]
    simp only [List.nil_append]
    rw [acceptedRaw_all maxLen (scanLines input) hall]
    rw [scanLines]
    exact joinLines_scanGo input [] (by simp) h13 (by simpa using hne)
      (by simpa using hlast)

/-- Witness for C9: input `"AB"` (no trailing newline), `maxLength = 5`:
the transmitted bytes are `"AB"` plus one appended newline. -/
theorem raw_bodies_are_terminated_lines_witness :
    ((WriteRaw 5 sendOk [65, 66]).sent).flatten = [65, 66] ++ [10] :=
  (raw_bodies_are_terminated_lines 5 [65, 66]).2 (by decide) (by decide)
    (by decide) (by decide)

lemma goBatch_sent_prefix (maxLen : Nat) :
    ∀ (rest : List Event) (index : Nat) (buffer tooLongs : List Nat)
      (sent : List (List Nat)),
      ∃ t, (goBatch maxLen sendOk rest index buffer tooLongs sent).sent =
        sent ++ t := by
  intro rest
  induction rest with
  | nil =>
    intro index buffer tooLongs sent
    by_cases hbuf : 0 < buffer.length
    · exact ⟨[buffer], by simp [goBatch, hbuf, sendOk]⟩
    · exact ⟨[], by simp [goBatch, hbuf]⟩
  | cons ev rest ih =>
    intro index buffer tooLongs sent
    by_cases hemp : ev.empty = true
    · simp only [goBatch, hemp, if_true]
      exact ih _ _ _ _
    · by_cases hov : maxLen < ev.encoded.length
      · simp only [goBatch, hemp, Bool.false_eq_true, if_false, hov, if_true]
        exact ih _ _ _ _
      · by_cases hfl : maxLen < buffer.length + ev.encoded.length
        · simp only [goBatch, hemp, Bool.false_eq_true, if_false, hov, hfl,
            if_true, sendOk]
          obtain ⟨t, ht⟩ := ih (index + 1) ev.encoded tooLongs (sent ++ [buffer])
          exact ⟨[buffer] ++ t, by rw [ht]; simp⟩
        · simp only [goBatch, hemp, Bool.false_eq_true, if_false, hov, hfl]
          exact ih _ _ _ _

lemma goRaw_sent_prefix (maxLen : Nat) :
    ∀ (rest : List (List Nat)) (n : Nat) (buf tooLongs : List Nat)
      (sent : List (List Nat)),
      ∃ t, (goRaw maxLen sendOk rest n buf tooLongs sent).sent = sent ++ t := by
  intro rest
  induction rest with
  | nil =>
    intro n buf tooLongs sent
    by_cases hbuf : 0 < buf.length
    · exact ⟨[buf], by simp [goRaw, hbuf, sendOk]⟩
    · exact ⟨[], by simp [goRaw, hbuf]⟩
  | cons line rest ih =>
    intro n buf tooLongs sent
    by_cases hov : maxLen < line.length
    · simp only [goRaw, hov, if_true]
      exact ih _ _ _ _
    · by_cases hfl : maxLen < buf.length + line.length + 1
      · simp only [goRaw, hov, if_false, hfl, if_true, sendOk]
        obtain ⟨t, ht⟩ := ih (n + 1) (line ++ [10]) tooLongs (sent ++ [buf])
        exact ⟨[buf] ++ t, by rw [ht]; simp⟩
      · simp only [goRaw, hov, if_false, hfl]
        exact ih _ _ _ _

lemma goBatch_fault (maxLen : Nat) (res : Nat → Option Nat) (j e : Nat)
    (hj : res j = some e) (hlt : ∀ i, i < j → res i = none) :
    ∀ (rest : List Event) (index : Nat) (buffer tooLongs : List Nat)
      (sent : List (List Nat)),
      sent.length ≤ j →
      j < (goBatch maxLen sendOk rest index buffer tooLongs sent).sent.length →
      goBatch maxLen res rest index buffer tooLongs sent =
        ⟨((goBatch maxLen sendOk rest index buffer tooLongs sent).sent).take
          (j + 1), Outcome.fault e⟩ := by
  intro rest
  induction rest with
  | nil =>
    intro index buffer tooLongs sent hle hlen
    by_cases hbuf : 0 < buffer.length
    · have hok : (goBatch maxLen sendOk [] index buffer tooLongs sent).sent =
          sent ++ [buffer] := by
        simp [goBatch, hbuf, sendOk]
      rw [hok] at hlen ⊢
      have hj' : sent.length = j := by
        simp only [List.length_append, List.length_singleton] at hlen
        omega
      have hres : res sent.length = some e := by rw [hj']; exact hj
      simp only [goBatch, hbuf, if_true, hres]
      have hlen2 : (sent ++ [buffer]).length = j + 1 := by
        simp [hj']
      rw [← hlen2, List.take_length]
    · have hok : (goBatch maxLen sendOk [] index buffer tooLongs sent).sent =
          sent := by
        simp [goBatch, hbuf]
      rw [hok] at hlen
      omega
  | cons ev rest ih =>
    intro index buffer tooLongs sent hle hlen
    by_cases hemp : ev.empty = true
    · simp only [goBatch, hemp, if_true] at hlen ⊢
      exact ih _ _ _ _ hle hlen
    · by_cases hov : maxLen < ev.encoded.length
      · simp only [goBatch, hemp, Bool.false_eq_true, if_false, hov,
          if_true] at hlen ⊢
        exact ih _ _ _ _ hle hlen
      · by_cases hfl : maxLen < buffer.length + ev.encoded.length
        · simp only [goBatch, hemp, Bool.false_eq_true, if_false, hov, hfl,
            if_true, sendOk] at hlen ⊢
          by_cases hjs : sent.length = j
          · have hres : res sent.length = some e := by rw [hjs]; exact hj
            simp only [hres]
            obtain ⟨t, ht⟩ := goBatch_sent_prefix maxLen rest (index + 1)
              ev.encoded tooLongs (sent ++ [buffer])
            rw [ht]
            have hlen2 : (sent ++ [buffer]).length = j + 1 := by
              simp [hjs]
            rw [List.take_left' hlen2]
          · have hres : res sent.length = none :=
              hlt sent.length (by omega)
            simp only [hres]
            exact ih _ _ _ _ (by simp; omega) hlen
        · simp only [goBatch, hemp, Bool.false_eq_true, if_false, hov,
            hfl] at hlen ⊢
          exact ih _ _ _ _ hle hlen

lemma goRaw_fault (maxLen : Nat) (res : Nat → Option Nat) (j e : Nat)
    (hj : res j = some e) (hlt : ∀ i, i < j → res i = none) :
    ∀ (rest : List (List Nat)) (n : Nat) (buf tooLongs : List Nat)
      (sent : List (List Nat)),
      sent.length ≤ j →
      j < (goRaw maxLen sendOk rest n buf tooLongs sent).sent.length →
      goRaw maxLen res rest n buf tooLongs sent =
        ⟨((goRaw maxLen sendOk rest n buf tooLongs sent).sent).take (j + 1),
          Outcome.fault e⟩ := by
  intro rest
  induction rest with
  | nil =>
    intro n buf tooLongs sent hle hlen
    by_cases hbuf : 0 < buf.length
    · have hok : (goRaw maxLen sendOk [] n buf tooLongs sent).sent =
          sent ++ [buf] := by
        simp [goRaw, hbuf, sendOk]
      rw [hok] at hlen ⊢
      have hj' : sent.length = j := by
        simp only [List.length_append, List.length_singleton] at hlen
        omega
      have hres : res sent.length = some e := by rw [hj']; exact hj
      simp only [goRaw, hbuf, if_true, hres]
      have hlen2 : (sent ++ [buf]).length = j + 1 := by
        simp [hj']
      rw [← hlen2, List.take_length]
    · have hok : (goRaw maxLen sendOk [] n buf tooLongs sent).sent = sent := by
        simp [goRaw, hbuf]
      rw [hok] at hlen
      omega
  | cons line rest ih =>
    intro n buf tooLongs sent hle hlen
    by_cases hov : maxLen < line.length
    · simp only [goRaw, hov, if_true] at hlen ⊢
      exact ih _ _ _ _ hle hlen
    · by_cases hfl : maxLen < buf.length + line.length + 1
      · simp only [goRaw, hov, if_false, hfl, if_true, sendOk] at hlen ⊢
        by_cases hjs : sent.length = j
        · have hres : res sent.length = some e := by rw [hjs]; exact hj
          simp only [hres]
          obtain ⟨t, ht⟩ := goRaw_sent_prefix maxLen rest (n + 1)
            (line ++ [10]) tooLongs (sent ++ [buf])
          rw [ht]
          have hlen2 : (sent ++ [buf]).length = j + 1 := by
            simp [hjs]
          rw [List.take_left' hlen2]
        · have hres : res sent.length = none :=
            hlt sent.length (by omega)
          simp only [hres]
          exact ih _ _ _ _ (by simp; omega) hlen
      · simp only [goRaw, hov, if_false, hfl] at hlen ⊢
        exact ih _ _ _ _ hle hlen

/-- C7: in both batch and raw mode, if the j-th transmission fails
(the earlier ones succeeding), the call transmits exactly the first
`j + 1` bodies of the corresponding all-success run and returns the
fault of `hec.write`: no later record or line is processed or
transmitted, and any oversize indices gathered so far are discarded in
favour of the fault (the result carries no oversize list). -/
theorem fault_stops_processing :
    ∀ (maxLen : Nat) (res : Nat → Option Nat) (events : List Event)
      (input : List Nat) (j e : Nat),
      res j = some e → (∀ i, i < j → res i = none) →
      (j < (WriteBatch maxLen sendOk events).sent.length →
        WriteBatch maxLen res events =
          ⟨((WriteBatch maxLen sendOk events).sent).take (j + 1),
            Outcome.fault e⟩) ∧
      (j < (WriteRaw maxLen sendOk input).sent.length →
        WriteRaw maxLen res input =
          ⟨((WriteRaw maxLen sendOk input).sent).take (j + 1),
            Outcome.fault e⟩) := by
  intro maxLen res events input j e hj hlt
  constructor
  · intro hlen
    unfold WriteBatch at hlen ⊢
    by_cases hev : events.length = 0
    · rw [if_pos hev] at hlen
      simp at hlen
    · simp only [if_neg hev] at hlen ⊢
      exact goBatch_fault maxLen res j e hj hlt events 0 [] [] []
        (by simp) hlen
  · intro hlen
    unfold WriteRaw at hlen ⊢
    exact goRaw_fault maxLen res j e hj hlt (scanLines input) 1 [] [] []
      (by simp) hlen

/-- Witness for C7: one batch record and one raw line, with the very
first transmission failing with error 7. -/
theorem fault_stops_processing_witness :
    WriteBatch 10 (fun n => if n = 0 then some 7 else none)
      [⟨false, [65]⟩] = ⟨[[65]], Outcome.fault 7⟩ ∧
    WriteRaw 10 (fun n => if n = 0 then some 7 else none) [66] =
      ⟨[[66, 10]], Outcome.fault 7⟩ := by
  have h := fault_stops_processing 10
    (fun n => if n = 0 then some 7 else none) [⟨false, [65]⟩] [66] 0 7 rfl
    (fun i hi => absurd hi (Nat.not_lt_zero i))
  constructor
  · rw [h.1 (by decide)]
    decide
  · rw [h.2 (by decide)]
    decide

end SplunkHec
